import Mathlib

/-!
Verification of crazyParser.py (CrazyParser repository).

The script discovers candidate typosquatted domains by invoking the external
tools urlcrazy and dnstwist per monitored domain, parses their intermediate
output files, diffs the candidates against the knowndomains.csv ledger,
deduplicates, and writes a result artifact with a single "Domain" header.

This file gives a shallow embedding of the script:
  - Python strings are Lean `String`; Python `None`-able CSV cell values are
    `Option String` (`none` models Python `None`).
  - A file on disk is a pair `(name, lines)`; the filesystem is the list of
    such pairs in directory-listing order.
  - Fallible Python code (uncaught exceptions) is `Except PyErr`; an
    exception caught by a bare `except:` never surfaces as `.error`.
The definitions follow the source functions of src/crazyParser.py, keeping
their names (`dedup`, `parseOutput`, `doCrazy`, `doCleanup`, `checkPerms`,
`checkDepends`).
-/

namespace CrazyParser

/-- Exceptions that can propagate uncaught out of the script's parsing code:
`KeyError` from `row['CC-A']` / `row['Typo']` / `row['Domain']` lookups,
`IndexError` from `row[1]`, `StopIteration` from `next(reader)` on a too-short
file, and `csv.Error` ("line contains NULL byte") from the plain csv reader. -/
inductive PyErr where
  | keyError
  | indexError
  | stopIteration
  | csvError
deriving DecidableEq

/-- Model of `row.replace('\0', '')`: remove every NUL character of a line. -/
def stripNulls (s : String) : String :=
  ⟨s.data.filter (fun c => c ≠ Char.ofNat 0)⟩

/-- Whether a raw line contains a NUL byte (the plain `csv.reader` raises
`csv.Error` on such a line; only the urlcrazy branch strips NULs first). -/
def hasNull (s : String) : Bool :=
  s.data.any (fun c => c = Char.ofNat 0)

/-- Split a character list on commas into cells. -/
def splitCells : List Char → List (List Char)
  | [] => [[]]
  | c :: cs =>
      if c = ',' then [] :: splitCells cs
      else
        match splitCells cs with
        | [] => [[c]]
        | cell :: rest => (c :: cell) :: rest

/-- Model of the csv module's splitting of one physical line into a record:
a blank line yields the empty record `[]`, any other line is split on commas.
(Quoting is not exercised by the script's inputs and is not modelled.) -/
def splitRow (s : String) : List String :=
  if s = "" then [] else (splitCells s.data).map (fun cs => ⟨cs⟩)

/-- Model of Python `str.endswith`. -/
def strEndsWith (s sfx : String) : Bool :=
  sfx.data.isSuffixOf s.data

/-- Worker loop of `dedup` (src/crazyParser.py:285-298): `seen` is the set of
markers already seen (the source's `seen` dict, with the default identity
`idfun`); an item already seen is skipped (`continue`), otherwise it is marked
and appended to the result. -/
def dedupGo {α : Type} [DecidableEq α] (seen : List α) : List α → List α
  | [] => []
  | x :: xs => if x ∈ seen then dedupGo seen xs else x :: dedupGo (x :: seen) xs

/-- `dedup(domainslist)` from src/crazyParser.py:285-298 with the default
`idfun=None` (identity), as used at its only call site (line 186). -/
def dedup {α : Type} [DecidableEq α] (l : List α) : List α :=
  dedupGo [] l

/-- Spec-side definition, written from the spec's words for comparison with
the source's `dedup`: keep the first occurrence of each element in place and
drop every later duplicate. -/
def keepFirstOccurrences {α : Type} [DecidableEq α] : List α → List α
  | [] => []
  | x :: xs => x :: keepFirstOccurrences (xs.filter (fun a => a ≠ x))
termination_by l => l.length
decreasing_by
  simp only [List.length_cons]
  exact Nat.lt_succ_of_le (List.length_filter_le _ _)

theorem mem_dedupGo {α : Type} [DecidableEq α] (v : α) :
    ∀ (l seen : List α), v ∈ dedupGo seen l ↔ v ∈ l ∧ v ∉ seen := by
  intro l
  induction l with
  | nil => intro seen; simp [dedupGo]
  | cons x xs ih =>
    intro seen
    by_cases hx : x ∈ seen
    · simp only [dedupGo, if_pos hx, ih, List.mem_cons]
      by_cases hvx : v = x
      · subst hvx; simp [hx]
      · simp [hvx]
    · simp only [dedupGo, if_neg hx, List.mem_cons, ih]
      by_cases hvx : v = x
      · subst hvx; simp [hx]
      · simp [hvx]

theorem nodup_dedupGo {α : Type} [DecidableEq α] :
    ∀ (l seen : List α), (dedupGo seen l).Nodup := by
  intro l
  induction l with
  | nil => intro seen; simp [dedupGo]
  | cons x xs ih =>
    intro seen
    by_cases hx : x ∈ seen
    · simpa [dedupGo, if_pos hx] using ih seen
    · simp only [dedupGo, if_neg hx]
      refine List.nodup_cons.mpr ⟨?_, ih (x :: seen)⟩
      intro hmem
      exact ((mem_dedupGo x xs (x :: seen)).mp hmem).2 (List.mem_cons_self x seen)

theorem mem_dedup {α : Type} [DecidableEq α] (v : α) (l : List α) :
    v ∈ dedup l ↔ v ∈ l := by
  simp [dedup, mem_dedupGo]

theorem nodup_dedup {α : Type} [DecidableEq α] (l : List α) :
    (dedup l).Nodup :=
  nodup_dedupGo l []

theorem keepFirstOccurrences_nil {α : Type} [DecidableEq α] :
    keepFirstOccurrences ([] : List α) = [] := by
  rw [keepFirstOccurrences.eq_def]

theorem keepFirstOccurrences_cons {α : Type} [DecidableEq α] (x : α) (xs : List α) :
    keepFirstOccurrences (x :: xs) =
      x :: keepFirstOccurrences (xs.filter (fun a => a ≠ x)) := by
  rw [keepFirstOccurrences.eq_def]

theorem dedupGo_eq_keepFirstOccurrences {α : Type} [DecidableEq α] :
    ∀ (l seen : List α),
      dedupGo seen l = keepFirstOccurrences (l.filter (fun a => a ∉ seen)) := by
  intro l
  induction l with
  | nil => intro seen; simp [dedupGo, keepFirstOccurrences_nil]
  | cons x xs ih =>
    intro seen
    by_cases hx : x ∈ seen
    · rw [dedupGo, if_pos hx, ih seen]
      congr 1
      simp [List.filter_cons, hx]
    · have hfc : (x :: xs).filter (fun a => a ∉ seen) =
          x :: xs.filter (fun a => a ∉ seen) := by
        simp [List.filter_cons, hx]
      rw [dedupGo, if_neg hx, hfc, keepFirstOccurrences_cons, ih (x :: seen)]
      congr 1
      rw [List.filter_filter]
      congr 1
      apply List.filter_congr
      intro a _
      simp only [List.mem_cons, not_or, decide_not, Bool.decide_and]

theorem dedup_eq_keepFirstOccurrences {α : Type} [DecidableEq α] (l : List α) :
    dedup l = keepFirstOccurrences l := by
  rw [dedup, dedupGo_eq_keepFirstOccurrences]
  congr 1
  simp

theorem dedupGo_of_nodup {α : Type} [DecidableEq α] :
    ∀ (l seen : List α), l.Nodup → (∀ a ∈ l, a ∉ seen) → dedupGo seen l = l := by
  intro l
  induction l with
  | nil => intro seen _ _; simp [dedupGo]
  | cons x xs ih =>
    intro seen hnd hdisj
    have hx : x ∉ seen := hdisj x (List.mem_cons_self x xs)
    rw [dedupGo, if_neg hx]
    congr 1
    apply ih (x :: seen) (List.nodup_cons.mp hnd).2
    intro a ha
    intro hmem
    rcases List.mem_cons.mp hmem with rfl | h
    · exact (List.nodup_cons.mp hnd).1 ha
    · exact hdisj a (List.mem_cons_of_mem _ ha) h

theorem dedup_of_nodup {α : Type} [DecidableEq α] (l : List α) (h : l.Nodup) :
    dedup l = l :=
  dedupGo_of_nodup l [] h (by simp)

/-- C7: the deduplicator returns the subsequence of first occurrences — it
coincides with the spec-side `keepFirstOccurrences` (first occurrence of each
domain keeps its position, later duplicates dropped), maps the empty list to
the empty list, and maps `[a, b, a, c, b]` (for pairwise distinct domains) to
`[a, b, c]`. -/
theorem dedup_first_occurrences :
    (∀ l : List String, dedup l = keepFirstOccurrences l) ∧
    dedup ([] : List String) = [] ∧
    (∀ a b c : String, a ≠ b → a ≠ c → b ≠ c →
      dedup [a, b, a, c, b] = [a, b, c]) := by
  refine ⟨fun l => dedup_eq_keepFirstOccurrences l, rfl, ?_⟩
  intro a b c hab hac hbc
  simp [dedup, dedupGo, List.mem_cons, hab, hac, hbc,
    Ne.symm hab, Ne.symm hac, Ne.symm hbc]

/-- Witness for `dedup_first_occurrences` at concrete inputs. -/
theorem dedup_first_occurrences_witness :
    (dedup ["x", "y", "x"] = keepFirstOccurrences ["x", "y", "x"] ∧
      dedup ([] : List String) = [] ∧
      dedup ["a", "b", "a", "c", "b"] = ["a", "b", "c"]) :=
  ⟨dedup_first_occurrences.1 ["x", "y", "x"],
   dedup_first_occurrences.2.1,
   dedup_first_occurrences.2.2 "a" "b" "c" (by decide) (by decide) (by decide)⟩

/-- C9: the deduplicator is idempotent — applying `dedup` to the output of
`dedup` yields that same output. -/
theorem dedup_idempotent (l : List String) :
    dedup (dedup l) = dedup l :=
  dedup_of_nodup (dedup l) (nodup_dedup l)

/-- Index of the last occurrence of `k` in a list (Python's
`dict(zip(fieldnames, row))` lets a later duplicate fieldname overwrite an
earlier one, so a key's value comes from its last index). -/
def lastIdx : List String → String → Option Nat
  | [], _ => none
  | x :: xs, k =>
      match lastIdx xs k with
      | some i => some (i + 1)
      | none => if x = k then some 0 else none

/-- Model of `row[key]` on a `csv.DictReader` row: `d = dict(zip(fieldnames,
row))` with `restval=None` filled in for fieldnames beyond the row's length.
A key not among the fieldnames raises `KeyError`; a fieldname whose (last)
index is beyond the row's length maps to `None`. -/
def dictGet (fieldnames row : List String) (k : String) :
    Except PyErr (Option String) :=
  match lastIdx fieldnames k with
  | none => .error .keyError
  | some i => .ok (row.get? i)

/-- Model of `len(row)` for a `csv.DictReader` row dict: one key per distinct
fieldname, plus the `restkey` (`None`) entry when the row is longer than the
fieldnames. -/
def rowDictLen (fieldnames row : List String) : Nat :=
  (dedup fieldnames).length + (if fieldnames.length < row.length then 1 else 0)

/-- Data-row loop of the knowndomains.csv load (src/crazyParser.py:143-146):
`for row in reader: knowndom.append(row['Domain'])`.  `csv.DictReader` skips
blank records. -/
def loadKnownRows (hdr : List String) :
    List (List String) → Except PyErr (List (Option String))
  | [] => .ok []
  | row :: rest =>
      if row = [] then loadKnownRows hdr rest
      else
        match dictGet hdr row "Domain" with
        | .error e => .error e
        | .ok v =>
            match loadKnownRows hdr rest with
            | .error e => .error e
            | .ok r => .ok (v :: r)

/-- Load of the classification ledger (src/crazyParser.py:142-146): a
`csv.DictReader` over knowndomains.csv whose first record is the header; on an
empty file the `fieldnames` lookup swallows `StopIteration` and the loop body
never runs. -/
def loadKnown (rows : List (List String)) : Except PyErr (List (Option String)) :=
  match rows with
  | [] => .ok []
  | hdr :: rest => loadKnownRows hdr rest

/-- Data-row loop of the urlcrazy branch (src/crazyParser.py:159-165): for
each `csv.DictReader` row (blank records skipped), when `len(row) != 0` and
`row['CC-A'] != "?"`, append `row['Typo']` unless it is in `knowndom`. -/
def parseUcRows (knowndom : List (Option String)) (hdr : List String) :
    List (List String) → Except PyErr (List (Option String))
  | [] => .ok []
  | row :: rest =>
      if row = [] then parseUcRows knowndom hdr rest
      else if rowDictLen hdr row ≠ 0 then
        match dictGet hdr row "CC-A" with
        | .error e => .error e
        | .ok cca =>
            if cca ≠ some "?" then
              match dictGet hdr row "Typo" with
              | .error e => .error e
              | .ok typo =>
                  if typo ∈ knowndom then parseUcRows knowndom hdr rest
                  else
                    match parseUcRows knowndom hdr rest with
                    | .error e => .error e
                    | .ok r => .ok (typo :: r)
        else parseUcRows knowndom hdr rest
      else parseUcRows knowndom hdr rest

/-- Parse of one `.uctmp` file (src/crazyParser.py:157-165): every line is
first stripped of NUL bytes (`row.replace('\0', '')`), then the records feed a
`csv.DictReader` whose first record is the header row. -/
def parseUcFile (knowndom : List (Option String)) (lines : List String) :
    Except PyErr (List (Option String)) :=
  match lines.map (fun l => splitRow (stripNulls l)) with
  | [] => .ok []
  | hdr :: rest => parseUcRows knowndom hdr rest

/-- Reading one record with the plain `csv.reader` used for dnstwist files:
a line holding a NUL byte raises `csv.Error` (the dnstwist branch does not
strip NULs). -/
def dtRow (line : String) : Except PyErr (List String) :=
  if hasNull line then .error .csvError else .ok (splitRow line)

/-- Data-row loop of the dnstwist branch (src/crazyParser.py:179-183):
`row[1]` raises `IndexError` on a record with fewer than two fields; otherwise
the field is appended unless it is in `knowndom`. -/
def parseDtRows (knowndom : List (Option String)) :
    List String → Except PyErr (List (Option String))
  | [] => .ok []
  | line :: rest =>
      match dtRow line with
      | .error e => .error e
      | .ok row =>
          match row.get? 1 with
          | none => .error .indexError
          | some v =>
              if (some v) ∈ knowndom then parseDtRows knowndom rest
              else
                match parseDtRows knowndom rest with
                | .error e => .error e
                | .ok r => .ok (some v :: r)

/-- Parse of one `.dttmp` file (src/crazyParser.py:175-183): two `next(reader)`
calls skip the header line and the original-domain line — on a file with fewer
than two records they raise `StopIteration` — then the data rows are read. -/
def parseDtFile (knowndom : List (Option String)) (lines : List String) :
    Except PyErr (List (Option String)) :=
  match lines with
  | [] => .error .stopIteration
  | [l1] =>
      match dtRow l1 with
      | .error e => .error e
      | .ok _ => .error .stopIteration
  | l1 :: l2 :: rest =>
      match dtRow l1 with
      | .error e => .error e
      | .ok _ =>
          match dtRow l2 with
          | .error e => .error e
          | .ok _ => parseDtRows knowndom rest

/-- Scan-and-parse loop for `.uctmp` files (src/crazyParser.py:149-165): every
file of the output directory whose name ends in `.uctmp` is parsed, in
directory-listing order, and its candidates are appended. -/
def collectUc (knowndom : List (Option String)) :
    List (String × List String) → Except PyErr (List (Option String))
  | [] => .ok []
  | (name, content) :: rest =>
      if strEndsWith name ".uctmp" then
        match parseUcFile knowndom content with
        | .error e => .error e
        | .ok vs =>
            match collectUc knowndom rest with
            | .error e => .error e
            | .ok r => .ok (vs ++ r)
      else collectUc knowndom rest

/-- Scan-and-parse loop for `.dttmp` files (src/crazyParser.py:167-183). -/
def collectDt (knowndom : List (Option String)) :
    List (String × List String) → Except PyErr (List (Option String))
  | [] => .ok []
  | (name, content) :: rest =>
      if strEndsWith name ".dttmp" then
        match parseDtFile knowndom content with
        | .error e => .error e
        | .ok vs =>
            match collectDt knowndom rest with
            | .error e => .error e
            | .ok r => .ok (vs ++ r)
      else collectDt knowndom rest

/-- Model of `parseOutput` (src/crazyParser.py:136-196) up to the point where
the result rows are known: load `knowndom` from the ledger, gather candidates
from every matching `.uctmp` file (when urlcrazy is enabled) then every
matching `.dttmp` file (when dnstwist is enabled), and deduplicate.  The
returned list is exactly the sequence of rows written after the header by the
result writer. -/
def parseOutput (fs : List (String × List String))
    (ledgerRows : List (List String)) (urlcrazy dnstwist : Bool) :
    Except PyErr (List (Option String)) :=
  match loadKnown ledgerRows with
  | .error e => .error e
  | .ok knowndom =>
      match (if urlcrazy then collectUc knowndom fs else .ok []) with
      | .error e => .error e
      | .ok uc =>
          match (if dnstwist then collectDt knowndom fs else .ok []) with
          | .error e => .error e
          | .ok dt => .ok (dedup (uc ++ dt))

/-- Result writer (src/crazyParser.py:190-196): `writer.writeheader()` emits
the single-field header row `Domain`, then `writer.writerow({'Domain': row})`
emits one row per candidate in order (`csv` serializes a `None` value as the
empty field). -/
def writeResults (domains : List (Option String)) : List (List String) :=
  ["Domain"] :: domains.map (fun v => [v.getD ""])

theorem lastIdx_isSome_of_mem (k : String) :
    ∀ l : List String, k ∈ l → ∃ i, lastIdx l k = some i := by
  intro l
  induction l with
  | nil => intro h; cases h
  | cons x xs ih =>
    intro h
    rcases hx : lastIdx xs k with - | i
    · rcases List.mem_cons.mp h with rfl | hmem
      · exact ⟨0, by simp [lastIdx, hx]⟩
      · rcases ih hmem with ⟨i, hi⟩
        rw [hi] at hx
        cases hx
    · exact ⟨i + 1, by simp [lastIdx, hx]⟩

theorem parseUcRows_not_known (k : List (Option String)) (hdr : List String) :
    ∀ (rows : List (List String)) (vs : List (Option String)),
      parseUcRows k hdr rows = .ok vs → ∀ v ∈ vs, v ∉ k := by
  intro rows
  induction rows with
  | nil =>
    intro vs h v hv
    simp only [parseUcRows] at h
    cases h
    cases hv
  | cons row rest ih =>
    intro vs h v hv
    simp only [parseUcRows] at h
    split at h
    · exact ih vs h v hv
    · split at h
      · split at h
        · cases h
        · split at h
          · split at h
            · cases h
            · split at h
              · exact ih vs h v hv
              · split at h
                · cases h
                · cases h
                  rcases List.mem_cons.mp hv with rfl | hv2
                  · assumption
                  · refine ih _ ?_ v hv2
                    assumption
          · exact ih vs h v hv
      · exact ih vs h v hv

theorem parseUcFile_not_known (k : List (Option String)) (lines : List String)
    (vs : List (Option String)) (h : parseUcFile k lines = .ok vs) :
    ∀ v ∈ vs, v ∉ k := by
  rw [parseUcFile] at h
  split at h
  · cases h; intro v hv; cases hv
  · exact parseUcRows_not_known k _ _ vs h

theorem parseDtRows_not_known (k : List (Option String)) :
    ∀ (lines : List String) (vs : List (Option String)),
      parseDtRows k lines = .ok vs → ∀ v ∈ vs, v ∉ k := by
  intro lines
  induction lines with
  | nil =>
    intro vs h v hv
    simp only [parseDtRows] at h
    cases h
    cases hv
  | cons line rest ih =>
    intro vs h v hv
    simp only [parseDtRows] at h
    split at h
    · cases h
    · split at h
      · cases h
      · split at h
        · exact ih vs h v hv
        · split at h
          · cases h
          · cases h
            rcases List.mem_cons.mp hv with rfl | hv2
            · assumption
            · refine ih _ ?_ v hv2
              assumption

theorem parseDtFile_not_known (k : List (Option String)) (lines : List String)
    (vs : List (Option String)) (h : parseDtFile k lines = .ok vs) :
    ∀ v ∈ vs, v ∉ k := by
  rw [parseDtFile.eq_def] at h
  split at h
  · cases h
  · split at h
    · cases h
    · cases h
  · split at h
    · cases h
    · split at h
      · cases h
      · exact parseDtRows_not_known k _ vs h

theorem collectUc_not_known (k : List (Option String)) :
    ∀ (fs : List (String × List String)) (uc : List (Option String)),
      collectUc k fs = .ok uc → ∀ v ∈ uc, v ∉ k := by
  intro fs
  induction fs with
  | nil =>
    intro uc h v hv
    simp only [collectUc] at h
    cases h
    cases hv
  | cons p rest ih =>
    intro uc h v hv
    rcases p with ⟨name, content⟩
    simp only [collectUc] at h
    split at h
    · split at h
      · cases h
      · split at h
        · cases h
        · cases h
          rcases List.mem_append.mp hv with h1 | h2
          · refine parseUcFile_not_known k content _ ?_ v h1
            assumption
          · refine ih _ ?_ v h2
            assumption
    · exact ih uc h v hv

theorem collectDt_not_known (k : List (Option String)) :
    ∀ (fs : List (String × List String)) (dt : List (Option String)),
      collectDt k fs = .ok dt → ∀ v ∈ dt, v ∉ k := by
  intro fs
  induction fs with
  | nil =>
    intro dt h v hv
    simp only [collectDt] at h
    cases h
    cases hv
  | cons p rest ih =>
    intro dt h v hv
    rcases p with ⟨name, content⟩
    simp only [collectDt] at h
    split at h
    · split at h
      · cases h
      · split at h
        · cases h
        · cases h
          rcases List.mem_append.mp hv with h1 | h2
          · refine parseDtFile_not_known k content _ ?_ v h1
            assumption
          · refine ih _ ?_ v h2
            assumption
    · exact ih dt h v hv

theorem not_known_all_eq_true (k out : List (Option String))
    (h : ∀ v ∈ out, v ∉ k) :
    out.all (fun v => decide (v ∉ k)) = true := by
  rw [List.all_eq_true]
  intro v hv
  simpa using h v hv

theorem ucIf_not_known (k : List (Option String)) (fs : List (String × List String))
    (b : Bool) (uc : List (Option String))
    (h : (if b then collectUc k fs else Except.ok []) = .ok uc) :
    ∀ v ∈ uc, v ∉ k := by
  split at h
  · exact collectUc_not_known k fs uc h
  · cases h
    intro v hv
    cases hv

theorem dtIf_not_known (k : List (Option String)) (fs : List (String × List String))
    (b : Bool) (dt : List (Option String))
    (h : (if b then collectDt k fs else Except.ok []) = .ok dt) :
    ∀ v ∈ dt, v ∉ k := by
  split at h
  · exact collectDt_not_known k fs dt h
  · cases h
    intro v hv
    cases hv

/-- C1: every candidate row written after the header of the result artifact is
absent from the `Domain` column loaded from the classification ledger at the
time of differencing, and the rows are pairwise distinct (each domain appears
exactly once, however many generator files reported it). -/
theorem parseOutput_disjoint_and_unique (fs : List (String × List String))
    (ledgerRows : List (List String)) (urlcrazy dnstwist : Bool)
    (knowndom out : List (Option String))
    (hk : loadKnown ledgerRows = .ok knowndom)
    (hp : parseOutput fs ledgerRows urlcrazy dnstwist = .ok out) :
    out.all (fun v => decide (v ∉ knowndom)) = true ∧ out.Nodup := by
  simp only [parseOutput, hk] at hp
  split at hp
  · cases hp
  · split at hp
    · cases hp
    · injection hp with hp
      subst hp
      refine ⟨not_known_all_eq_true _ _ ?_, nodup_dedup _⟩
      intro v hv
      rcases List.mem_append.mp ((mem_dedup v _).mp hv) with h1 | h2
      · refine ucIf_not_known knowndom fs urlcrazy _ ?_ v h1
        assumption
      · refine dtIf_not_known knowndom fs dnstwist _ ?_ v h2
        assumption

/-- Witness for `parseOutput_disjoint_and_unique`: a ledger naming known.com
and two generator files both reporting new.com (and the urlcrazy file also
reporting the already-known known.com). -/
theorem parseOutput_disjoint_and_unique_witness :
    loadKnown [["Domain", "Reason"], ["known.com", "Squatter"]] =
        .ok [some "known.com"] ∧
      parseOutput
          [("d.uctmp", ["Typo,CC-A", "known.com,1.1.1.1", "new.com,2.2.2.2"]),
           ("d.dttmp", ["h,h", "o,o", "x,new.com"])]
          [["Domain", "Reason"], ["known.com", "Squatter"]] true true =
        .ok [some "new.com"] ∧
      (([some "new.com"] : List (Option String)).all
          (fun v => decide (v ∉ ([some "known.com"] : List (Option String)))) =
            true ∧
        ([some "new.com"] : List (Option String)).Nodup) :=
  ⟨rfl, rfl,
    parseOutput_disjoint_and_unique
      [("d.uctmp", ["Typo,CC-A", "known.com,1.1.1.1", "new.com,2.2.2.2"]),
       ("d.dttmp", ["h,h", "o,o", "x,new.com"])]
      [["Domain", "Reason"], ["known.com", "Squatter"]] true true
      [some "known.com"] [some "new.com"] rfl rfl⟩

theorem parseUcRows_exists_ok (k : List (Option String)) (hdr : List String)
    (hcc : "CC-A" ∈ hdr) (hty : "Typo" ∈ hdr) :
    ∀ rows : List (List String), ∃ vs, parseUcRows k hdr rows = .ok vs := by
  rcases lastIdx_isSome_of_mem "CC-A" hdr hcc with ⟨i, hi⟩
  rcases lastIdx_isSome_of_mem "Typo" hdr hty with ⟨j, hj⟩
  intro rows
  induction rows with
  | nil => exact ⟨[], rfl⟩
  | cons row rest ih =>
    rcases ih with ⟨vs, hvs⟩
    simp only [parseUcRows, dictGet, hi, hj]
    split
    · exact ⟨vs, hvs⟩
    · split
      · split
        · split
          · exact ⟨vs, hvs⟩
          · rw [hvs]
            exact ⟨_, rfl⟩
        · exact ⟨vs, hvs⟩
      · exact ⟨vs, hvs⟩

/-- C3 (amended): per-row tolerance exists only in the urlcrazy branch — a
`.uctmp` file whose header row has the `CC-A` and `Typo` columns is parsed
without error whatever its data rows hold (NUL bytes are stripped, short rows
fall back to `None` values), while in the dnstwist branch a single record with
fewer than two fields raises `IndexError` uncaught, so the remaining rows of
the file are never processed and the run aborts. -/
theorem per_row_tolerance_uc_only :
    (∀ (knowndom : List (Option String)) (lines hdr : List String)
        (rest : List (List String)),
        lines.map (fun l => splitRow (stripNulls l)) = hdr :: rest →
        "CC-A" ∈ hdr → "Typo" ∈ hdr →
        (parseUcFile knowndom lines).isOk = true) ∧
    (∀ (knowndom : List (Option String)) (l1 l2 bad : String)
        (rest : List String),
        hasNull l1 = false → hasNull l2 = false → hasNull bad = false →
        (splitRow bad).length ≤ 1 →
        parseDtFile knowndom (l1 :: l2 :: bad :: rest) = .error .indexError) := by
  constructor
  · intro k lines hdr rest hmap hcc hty
    rw [parseUcFile, hmap]
    show (parseUcRows k hdr rest).isOk = true
    rcases parseUcRows_exists_ok k hdr hcc hty rest with ⟨vs, hvs⟩
    rw [hvs]
    rfl
  · intro k l1 l2 bad rest h1 h2 hb hlen
    have hg : (splitRow bad).get? 1 = none := List.get?_eq_none.mpr hlen
    simp only [parseDtFile, parseDtRows, dtRow, h1, h2, hb, Bool.false_eq_true,
      if_false, hg]

/-- Witness for `per_row_tolerance_uc_only` at concrete files. -/
theorem per_row_tolerance_uc_only_witness :
    ((["Typo,CC-A", "new.com,1.1.1.1"].map (fun l => splitRow (stripNulls l)) =
        [["Typo", "CC-A"], ["new.com", "1.1.1.1"]]) ∧
      "CC-A" ∈ ["Typo", "CC-A"] ∧ "Typo" ∈ ["Typo", "CC-A"] ∧
      (parseUcFile [] ["Typo,CC-A", "new.com,1.1.1.1"]).isOk = true) ∧
    (hasNull "a,b" = false ∧ hasNull "c,d" = false ∧ hasNull "solo" = false ∧
      (splitRow "solo").length ≤ 1 ∧
      parseDtFile [] ["a,b", "c,d", "solo", "x,y"] = .error .indexError) :=
  ⟨⟨rfl, by decide, by decide,
    per_row_tolerance_uc_only.1 [] ["Typo,CC-A", "new.com,1.1.1.1"]
      ["Typo", "CC-A"] [["new.com", "1.1.1.1"]] rfl (by decide) (by decide)⟩,
   ⟨rfl, rfl, rfl, by decide,
    per_row_tolerance_uc_only.2 [] "a,b" "c,d" "solo" ["x,y"]
      rfl rfl rfl (by decide)⟩⟩

/-- Counterexample to C3 as stated: a dnstwist intermediate file holding one
malformed record (`badrow`, a single field) followed by a well-formed record
(`ok,newdom.com`) makes the whole run abort with an uncaught `IndexError`;
the remaining row is not processed and contributes nothing, contradicting
"only that row is skipped ... and the run does not abort". -/
theorem dt_malformed_row_aborts_run :
    parseOutput [("f.dttmp", ["h,h", "o,o", "badrow", "ok,newdom.com"])]
      [["Domain", "Reason"]] false true = .error .indexError := rfl

theorem collectUc_mem (k : List (Option String)) :
    ∀ (fs : List (String × List String)) (uc : List (Option String))
      (name : String) (lines : List String) (vs : List (Option String))
      (v : Option String),
      collectUc k fs = .ok uc → (name, lines) ∈ fs →
      strEndsWith name ".uctmp" = true →
      parseUcFile k lines = .ok vs → v ∈ vs → v ∈ uc := by
  intro fs
  induction fs with
  | nil =>
    intro uc name lines vs v _ hmem
    cases hmem
  | cons p rest ih =>
    intro uc name lines vs v h hmem hend hparse hv
    rcases p with ⟨n, c⟩
    simp only [collectUc] at h
    rcases List.mem_cons.mp hmem with heq | hmem2
    · injection heq with e1 e2
      subst e1
      subst e2
      rw [if_pos hend] at h
      simp only [hparse] at h
      split at h
      · cases h
      · cases h
        exact List.mem_append.mpr (Or.inl hv)
    · split at h
      · split at h
        · cases h
        · split at h
          · cases h
          · cases h
            refine List.mem_append.mpr (Or.inr ?_)
            refine ih _ name lines vs v ?_ hmem2 hend hparse hv
            assumption
      · exact ih uc name lines vs v h hmem2 hend hparse hv

theorem collectDt_mem (k : List (Option String)) :
    ∀ (fs : List (String × List String)) (dt : List (Option String))
      (name : String) (lines : List String) (vs : List (Option String))
      (v : Option String),
      collectDt k fs = .ok dt → (name, lines) ∈ fs →
      strEndsWith name ".dttmp" = true →
      parseDtFile k lines = .ok vs → v ∈ vs → v ∈ dt := by
  intro fs
  induction fs with
  | nil =>
    intro dt name lines vs v _ hmem
    cases hmem
  | cons p rest ih =>
    intro dt name lines vs v h hmem hend hparse hv
    rcases p with ⟨n, c⟩
    simp only [collectDt] at h
    rcases List.mem_cons.mp hmem with heq | hmem2
    · injection heq with e1 e2
      subst e1
      subst e2
      rw [if_pos hend] at h
      simp only [hparse] at h
      split at h
      · cases h
      · cases h
        exact List.mem_append.mpr (Or.inl hv)
    · split at h
      · split at h
        · cases h
        · split at h
          · cases h
          · cases h
            refine List.mem_append.mpr (Or.inr ?_)
            refine ih _ name lines vs v ?_ hmem2 hend hparse hv
            assumption
      · exact ih dt name lines vs v h hmem2 hend hparse hv

/-- C10: the normalizer selects its inputs by directory scan, not by the
run's `tempFiles` registry (which is not even an argument of `parseOutput`):
whenever the output directory holds a file named `*.uctmp` (urlcrazy enabled)
or `*.dttmp` (dnstwist enabled) — however it got there — each candidate its
parse yields appears in the result rows. -/
theorem parseOutput_scans_directory (fs : List (String × List String))
    (ledgerRows : List (List String)) (urlcrazy dnstwist : Bool)
    (knowndom out : List (Option String)) (name : String) (lines : List String)
    (vs : List (Option String)) (v : Option String)
    (hk : loadKnown ledgerRows = .ok knowndom)
    (hp : parseOutput fs ledgerRows urlcrazy dnstwist = .ok out)
    (hmem : (name, lines) ∈ fs) :
    (urlcrazy = true → strEndsWith name ".uctmp" = true →
      parseUcFile knowndom lines = .ok vs → v ∈ vs → v ∈ out) ∧
    (dnstwist = true → strEndsWith name ".dttmp" = true →
      parseDtFile knowndom lines = .ok vs → v ∈ vs → v ∈ out) := by
  simp only [parseOutput, hk] at hp
  split at hp
  · cases hp
  · rename_i uc huc
    split at hp
    · cases hp
    · rename_i dt hdt
      injection hp with hp
      subst hp
      constructor
      · intro hb hend hparse hv
        subst hb
        rw [if_pos rfl] at huc
        refine (mem_dedup v _).mpr (List.mem_append.mpr (Or.inl ?_))
        exact collectUc_mem knowndom fs uc name lines vs v huc hmem hend hparse hv
      · intro hb hend hparse hv
        subst hb
        rw [if_pos rfl] at hdt
        refine (mem_dedup v _).mpr (List.mem_append.mpr (Or.inr ?_))
        exact collectDt_mem knowndom fs dt name lines vs v hdt hmem hend hparse hv

/-- Witness for `parseOutput_scans_directory`: one `.uctmp` and one `.dttmp`
file sitting in the scanned directory each contribute their candidate. -/
theorem parseOutput_scans_directory_witness :
    loadKnown [["Domain", "Reason"]] = .ok [] ∧
    parseOutput
        [("d.uctmp", ["Typo,CC-A", "t1.com,9.9.9.9"]),
         ("d.dttmp", ["h,h", "o,o", "x,t2.com"])]
        [["Domain", "Reason"]] true true = .ok [some "t1.com", some "t2.com"] ∧
    ("d.uctmp", ["Typo,CC-A", "t1.com,9.9.9.9"]) ∈
        [("d.uctmp", ["Typo,CC-A", "t1.com,9.9.9.9"]),
         ("d.dttmp", ["h,h", "o,o", "x,t2.com"])] ∧
    some "t1.com" ∈ [some "t1.com", some "t2.com"] ∧
    some "t2.com" ∈ [some "t1.com", some "t2.com"] :=
  ⟨rfl, rfl, by decide,
   (parseOutput_scans_directory
      [("d.uctmp", ["Typo,CC-A", "t1.com,9.9.9.9"]),
       ("d.dttmp", ["h,h", "o,o", "x,t2.com"])]
      [["Domain", "Reason"]] true true [] [some "t1.com", some "t2.com"]
      "d.uctmp" ["Typo,CC-A", "t1.com,9.9.9.9"] [some "t1.com"] (some "t1.com")
      rfl rfl (by decide)).1 rfl rfl rfl (by decide),
   (parseOutput_scans_directory
      [("d.uctmp", ["Typo,CC-A", "t1.com,9.9.9.9"]),
       ("d.dttmp", ["h,h", "o,o", "x,t2.com"])]
      [["Domain", "Reason"]] true true [] [some "t1.com", some "t2.com"]
      "d.dttmp" ["h,h", "o,o", "x,t2.com"] [some "t2.com"] (some "t2.com")
      rfl rfl (by decide)).2 rfl rfl rfl (by decide)⟩

/-- C8: the result writer emits the header row naming the single `Domain`
column first, then one row per candidate in the deduplicated order: the file
has `1 + N` rows for `N` candidates, and exactly the header row when the
candidate sequence is empty. -/
theorem writeResults_header_then_rows (domains : List (Option String)) :
    (writeResults domains).length = 1 + domains.length ∧
    (writeResults domains).head? = some ["Domain"] ∧
    (∀ i : Nat, (writeResults domains).get? (i + 1) =
      (domains.get? i).map (fun v => [v.getD ""])) ∧
    writeResults [] = [["Domain"]] := by
  refine ⟨?_, rfl, ?_, rfl⟩
  · simp [writeResults, Nat.add_comm]
  · intro i
    simp [writeResults, List.get?_map]

/-- Model of `os.remove(path)` on a filesystem given as a list of
`(name, lines)` files: removing an existing file drops it, removing a missing
path raises `OSError`. -/
def osRemove (fs : List (String × List String)) (p : String) :
    Except Unit (List (String × List String)) :=
  if fs.any (fun e => e.1 = p) then .ok (fs.filter (fun e => e.1 ≠ p))
  else .error ()

/-- `doCleanup` (src/crazyParser.py:271-283): the directory is scanned into
`filedict` (every `.uctmp`/`.dttmp` file), but the removal loop then iterates
the `tempFiles` registry instead — `filedict` is built and never used.  Each
`os.remove` is wrapped in `try/except OSError` that prints an error message
and continues, so a missing path never makes the cleanup fail. -/
def doCleanup (fs : List (String × List String)) (tempFiles : List String) :
    List (String × List String) :=
  let _filedict := fs.filter
    (fun e => strEndsWith e.1 ".uctmp" || strEndsWith e.1 ".dttmp")
  tempFiles.foldl
    (fun acc f =>
      match osRemove acc f with
      | .ok fs2 => fs2
      | .error _ => acc)
    fs

theorem osRemove_step (fs : List (String × List String)) (p : String) :
    (match osRemove fs p with
      | .ok fs2 => fs2
      | .error _ => fs) = fs.filter (fun e => e.1 ≠ p) := by
  by_cases h : fs.any (fun e => e.1 = p) = true
  · rw [osRemove, if_pos h]
  · rw [osRemove, if_neg h]
    show fs = fs.filter (fun e => e.1 ≠ p)
    rw [Bool.not_eq_true, List.any_eq_false] at h
    symm
    rw [List.filter_eq_self]
    intro e he
    simpa using h e he

theorem doCleanup_eq_filter :
    ∀ (reg : List String) (fs : List (String × List String)),
      doCleanup fs reg = fs.filter (fun e => decide (e.1 ∉ reg)) := by
  intro reg
  induction reg with
  | nil =>
    intro fs
    simp [doCleanup]
  | cons f reg' ih =>
    intro fs
    show List.foldl _ _ (f :: reg') = _
    rw [List.foldl_cons]
    have hstep := osRemove_step fs f
    simp only at hstep
    rw [hstep]
    rw [show ∀ l acc, List.foldl
        (fun acc g =>
          match osRemove acc g with
          | .ok fs2 => fs2
          | .error _ => acc) acc l = doCleanup acc l from fun l acc => rfl]
    rw [ih, List.filter_filter]
    apply List.filter_congr
    intro e _
    simp only [List.mem_cons, not_or, decide_not, Bool.decide_and]
    by_cases h1 : e.1 = f <;> by_cases h2 : e.1 ∈ reg' <;> simp [h1, h2]

/-- C6: the exit-time cleanup removes every registered temp-file path — after
`doCleanup` no file of the filesystem bears a registered name, whatever state
the run reached before exiting (the `atexit` registration runs it on normal
completion, failure, and early termination alike) — and a path already missing
at cleanup time does not make the cleanup fail: the result is always exactly
the files whose names were never registered. -/
theorem doCleanup_removes_registered (fs : List (String × List String))
    (reg : List String) (p : String) (hp : p ∈ reg) :
    doCleanup fs reg = fs.filter (fun e => decide (e.1 ∉ reg)) ∧
    (doCleanup fs reg).all (fun e => decide (e.1 ≠ p)) = true := by
  refine ⟨doCleanup_eq_filter reg fs, ?_⟩
  rw [doCleanup_eq_filter reg fs, List.all_eq_true]
  intro e he
  have := List.of_mem_filter he
  simp only [decide_eq_true_eq] at this ⊢
  intro hep
  exact this (hep ▸ hp)

/-- Witness for `doCleanup_removes_registered`: one registered file present,
one registered path already missing (whose failed removal is swallowed), one
unregistered file kept. -/
theorem doCleanup_removes_registered_witness :
    "a.com.uctmp" ∈ ["a.com.uctmp", "gone.dttmp"] ∧
    (doCleanup [("a.com.uctmp", []), ("keep.csv", [])]
        ["a.com.uctmp", "gone.dttmp"] =
      ([("a.com.uctmp", []), ("keep.csv", [])].filter
        (fun e => decide (e.1 ∉ ["a.com.uctmp", "gone.dttmp"]))) ∧
     (doCleanup [("a.com.uctmp", []), ("keep.csv", [])]
        ["a.com.uctmp", "gone.dttmp"]).all
        (fun e => decide (e.1 ≠ "a.com.uctmp")) = true) :=
  ⟨by decide,
   doCleanup_removes_registered [("a.com.uctmp", []), ("keep.csv", [])]
     ["a.com.uctmp", "gone.dttmp"] "a.com.uctmp" (by decide)⟩

/-- C2 fails on the code: at startup the `tempFiles` registry is still empty,
and `doCleanup` iterates the registry — not the `filedict` it just scanned —
so a leftover intermediate file from a prior run survives the startup cleanup.
This theorem evaluates the code at the failing input: a working directory
holding a stale `old.uctmp` is returned unchanged. -/
theorem startup_cleanup_keeps_stale_file :
    doCleanup [("old.uctmp", ["stale"])] [] = [("old.uctmp", ["stale"])] := rfl

/-- Environment facts probed by `checkPerms`/`checkDepends`
(src/crazyParser.py:55-93): accessibility and writability of the output
directory, existence of the two required csv files, and presence of the two
generator binaries at their configured paths. -/
structure Env where
  docRootAccessible : Bool
  docRootWritable : Bool
  myDomainsExists : Bool
  knownDomainsExists : Bool
  urlcrazyFound : Bool
  dnstwistFound : Bool
deriving DecidableEq

/-- Outcome of one urlcrazy invocation (`subprocess.call`, which raises only
when the binary cannot be executed; a tool that ran may or may not have
written its `-o` output file, and its exit code is ignored). -/
inductive UcOutcome where
  | raised
  | ranFile (content : List String)
  | ranNoFile

/-- Outcome of one dnstwist invocation (`subprocess.check_output`, which
raises on a missing binary and on a nonzero exit; on success its stdout is
written to the intermediate file). -/
inductive DtOutcome where
  | raised
  | output (content : List String)

/-- Behaviour of the two external generators, per monitored domain. -/
structure Tools where
  uc : String → UcOutcome
  dt : String → DtOutcome

/-- A `sys.exit()` call: the exit status and the diagnostic lines printed
just before it.  Every environment-error site calls `sys.exit()` with no
argument, which terminates the interpreter with status 0. -/
structure SysExit where
  code : Nat
  diag : List String
deriving DecidableEq

/-- `checkPerms` (src/crazyParser.py:55-70): inaccessible output directory,
then unwritable output directory (the failed `TemporaryFile` raises
`OSError`); each prints two lines and calls `sys.exit()`. -/
def checkPerms (e : Env) : Except SysExit Unit :=
  if !e.docRootAccessible then
    .error ⟨0, ["Destination directory not accessible.",
                "Please check permissions.  Exiting..."]⟩
  else if !e.docRootWritable then
    .error ⟨0, ["Unable to write to desired directory.",
                "Please check permissions.  Exiting..."]⟩
  else .ok ()

/-- `checkDepends` (src/crazyParser.py:72-93): missing mydomains.csv or
knowndomains.csv, then a missing urlcrazy binary when urlcrazy is enabled,
then a missing dnstwist binary when dnstwist is enabled. -/
def checkDepends (e : Env) (urlcrazy dnstwist : Bool) : Except SysExit Unit :=
  if !e.myDomainsExists || !e.knownDomainsExists then
    .error ⟨0, ["Required configuration files - mydomains.csv or knowndomains.csv - not found.",
                "Please verify configuration."]⟩
  else if urlcrazy && !e.urlcrazyFound then
    .error ⟨0, ["URLCrazy specified but was not found.",
                "Please check urlcrazyPath in crazyParser.py.  Exiting..."]⟩
  else if dnstwist && !e.dnstwistFound then
    .error ⟨0, ["DNStwist specified but was not found.",
                "Please check urlcrazyPath in crazyParser.py.  Exiting..."]⟩
  else .ok ()

/-- State threaded through the `doCrazy` loop: the files of the output
directory, the `tempFiles` registry, the number of generator invocations so
far, and the error lines printed by the `except:` handlers. -/
structure CrazyState where
  fs : List (String × List String)
  tempFiles : List String
  calls : Nat
  logs : List String

/-- Writing a file: overwrite an existing entry in place, else append
(directory-listing order keeps creation order). -/
def fsWrite (fs : List (String × List String)) (name : String)
    (content : List String) : List (String × List String) :=
  if fs.any (fun e => e.1 = name) then
    fs.map (fun e => if e.1 = name then (name, content) else e)
  else fs ++ [(name, content)]

/-- Body of the per-domain loop of `doCrazy` (src/crazyParser.py:104-134).
urlcrazy: the tool itself writes `<domain>.uctmp`; an exception is caught and
logged, otherwise the path is registered (whether or not the tool produced the
file).  dnstwist: `open(dtoutfile, 'wb')` creates/truncates `<domain>.dttmp`
BEFORE `check_output` runs, so a raising invocation is caught and logged but
leaves an empty intermediate file behind, unregistered. -/
def doCrazyStep (tools : Tools) (urlcrazy dnstwist : Bool)
    (st : CrazyState) (domain : String) : CrazyState :=
  let st1 :=
    if urlcrazy then
      let st := { st with calls := st.calls + 1 }
      match tools.uc domain with
      | .raised =>
          { st with logs := st.logs ++ ["Unexpected error running urlcrazy:"] }
      | .ranFile c =>
          { st with fs := fsWrite st.fs (domain ++ ".uctmp") c,
                    tempFiles := st.tempFiles ++ [domain ++ ".uctmp"] }
      | .ranNoFile =>
          { st with tempFiles := st.tempFiles ++ [domain ++ ".uctmp"] }
    else st
  if dnstwist then
    let st2 := { st1 with calls := st1.calls + 1,
                          fs := fsWrite st1.fs (domain ++ ".dttmp") [] }
    match tools.dt domain with
    | .raised =>
        { st2 with logs := st2.logs ++ ["Unexpected error running dnstwist:"] }
    | .output c =>
        { st2 with fs := fsWrite st2.fs (domain ++ ".dttmp") c,
                   tempFiles := st2.tempFiles ++ [domain ++ ".dttmp"] }
  else st1

/-- `doCrazy` (src/crazyParser.py:95-134): the per-domain loop.  Every
exception of a generator invocation is caught by a bare `except:`, so the
loop itself always runs to completion. -/
def doCrazy (tools : Tools) (urlcrazy dnstwist : Bool)
    (myDomains : List String) (st0 : CrazyState) : CrazyState :=
  myDomains.foldl (doCrazyStep tools urlcrazy dnstwist) st0

/-- How the modelled process ends: a `sys.exit(code)`, an uncaught exception
(the interpreter then exits with status 1), or normal completion with the
result rows written after the header. -/
inductive Termination where
  | sysExit (code : Nat)
  | uncaught (e : PyErr)
  | normal (written : List (Option String))
deriving DecidableEq

/-- Process exit status of each termination kind. -/
def exitStatus : Termination → Nat
  | .sysExit c => c
  | .uncaught _ => 1
  | .normal _ => 0

/-- Result of a modelled run: how it terminated, the diagnostic lines it
printed, and how many generator invocations were attempted. -/
structure RunResult where
  term : Termination
  diags : List String
  calls : Nat

/-- The startup checks in their source order (src/crazyParser.py:342-345):
`checkPerms` then `checkDepends`, both before any cleanup or generator run. -/
def runChecks (env : Env) (urlcrazy dnstwist : Bool) : Except SysExit Unit :=
  match checkPerms env with
  | .error e => .error e
  | .ok _ => checkDepends env urlcrazy dnstwist

/-- `main` (src/crazyParser.py:300-363): checks, startup `doCleanup` (with the
still-empty registry), `doCrazy`, then `parseOutput`; an exception escaping
`parseOutput` is uncaught.  (The result e-mail and the exit-time `atexit`
cleanup do not affect the fields recorded here.) -/
def mainModel (env : Env) (tools : Tools) (urlcrazy dnstwist : Bool)
    (myDomains : List String) (ledgerRows : List (List String))
    (fs0 : List (String × List String)) : RunResult :=
  match runChecks env urlcrazy dnstwist with
  | .error e => ⟨.sysExit e.code, e.diag, 0⟩
  | .ok _ =>
      let fs1 := doCleanup fs0 []
      let st := doCrazy tools urlcrazy dnstwist myDomains ⟨fs1, [], 0, []⟩
      match parseOutput st.fs ledgerRows urlcrazy dnstwist with
      | .error e => ⟨.uncaught e, st.logs, st.calls⟩
      | .ok rows => ⟨.normal rows, st.logs, st.calls⟩

/-- The environment errors named by the spec: missing required csv file,
inaccessible or unwritable output directory, enabled generator binary
missing. -/
def envError (e : Env) (urlcrazy dnstwist : Bool) : Bool :=
  !e.docRootAccessible || !e.docRootWritable || !e.myDomainsExists ||
    !e.knownDomainsExists || (urlcrazy && !e.urlcrazyFound) ||
    (dnstwist && !e.dnstwistFound)

theorem runChecks_error_of_envError (env : Env) (uc dt : Bool)
    (h : envError env uc dt = true) :
    ∃ d, runChecks env uc dt = .error ⟨0, d⟩ ∧ d ≠ [] := by
  rcases env with ⟨a, w, m, k, u, n⟩
  cases a <;> cases w <;> cases m <;> cases k <;> cases u <;> cases n <;>
    cases uc <;> cases dt <;>
    first
      | exact ⟨_, rfl, by decide⟩
      | exact absurd h (by decide)

/-- C4 (amended): on every environment error the run terminates at the
startup checks — before any generator subprocess is invoked — and prints a
diagnostic, but it exits with status 0 (`sys.exit()` is called with no
argument at every such site), not with a nonzero status. -/
theorem env_error_exits_before_subprocess (env : Env) (tools : Tools)
    (urlcrazy dnstwist : Bool) (myDomains : List String)
    (ledgerRows : List (List String)) (fs0 : List (String × List String))
    (h : envError env urlcrazy dnstwist = true) :
    (mainModel env tools urlcrazy dnstwist myDomains ledgerRows fs0).term =
        .sysExit 0 ∧
    (mainModel env tools urlcrazy dnstwist myDomains ledgerRows fs0).calls = 0 ∧
    (mainModel env tools urlcrazy dnstwist myDomains ledgerRows fs0).diags ≠ [] := by
  rcases runChecks_error_of_envError env urlcrazy dnstwist h with ⟨d, hrc, hd⟩
  simp only [mainModel, hrc]
  exact ⟨trivial, trivial, hd⟩

/-- Generators that run but produce nothing; used to instantiate run-model
theorems at concrete inputs. -/
def toolsNone : Tools :=
  ⟨fun _ => UcOutcome.ranNoFile, fun _ => DtOutcome.output []⟩

/-- Witness for `env_error_exits_before_subprocess`: mydomains.csv missing. -/
theorem env_error_exits_before_subprocess_witness :
    envError ⟨true, true, false, true, true, true⟩ false false = true ∧
    ((mainModel ⟨true, true, false, true, true, true⟩ toolsNone false false
        [] [] []).term = .sysExit 0 ∧
      (mainModel ⟨true, true, false, true, true, true⟩ toolsNone false false
        [] [] []).calls = 0 ∧
      (mainModel ⟨true, true, false, true, true, true⟩ toolsNone false false
        [] [] []).diags ≠ []) :=
  ⟨rfl, env_error_exits_before_subprocess ⟨true, true, false, true, true, true⟩
    toolsNone false false [] [] [] rfl⟩

/-- Counterexample to C4 as stated: with mydomains.csv missing the run does
terminate at the checks, but `sys.exit()` is argumentless, so the process
exit status is 0 — not the nonzero status the claim asserts. -/
theorem env_error_exit_status_zero :
    (mainModel ⟨true, true, false, true, true, true⟩ toolsNone false false
        [] [] []).term = .sysExit 0 ∧
    exitStatus (mainModel ⟨true, true, false, true, true, true⟩ toolsNone
        false false [] [] []).term = 0 :=
  ⟨rfl, rfl⟩

/-- dnstwist raising for a.com (missing tool or nonzero exit) and succeeding
for b.com with one fresh candidate. -/
def toolsDtFail : Tools :=
  ⟨fun _ => UcOutcome.ranNoFile,
   fun d =>
     if d = "a.com" then DtOutcome.raised
     else DtOutcome.output ["rank,domain", "orig,a.com", "x,cand.com"]⟩

/-- C5 fails on the code: the failed dnstwist invocation for a.com is caught
and logged and the `doCrazy` loop finishes both domains (two invocations,
one log line) — but `open(dtoutfile, 'wb')` already left an empty
`a.com.dttmp` behind, and `parseOutput`'s `next(reader)` on that empty file
raises `StopIteration`, which nothing catches: the run aborts with no result
artifact, so b.com's candidate `cand.com` (which its file does deliver, last
conjunct) never appears anywhere. -/
theorem dt_failure_aborts_whole_run :
    mainModel ⟨true, true, true, true, true, true⟩ toolsDtFail false true
        ["a.com", "b.com"] [["Domain", "Reason"]] [] =
      ⟨.uncaught .stopIteration, ["Unexpected error running dnstwist:"], 2⟩ ∧
    parseDtFile [] ["rank,domain", "orig,a.com", "x,cand.com"] =
      .ok [some "cand.com"] :=
  ⟨rfl, rfl⟩

end CrazyParser
